import Mathlib

/-!
Verification development for the PterodactylMCP fuzzy-search core
(`pterodactyl_mcp/ai_tools.py`).

The Python module is shallowly embedded here:
* text is `List Char`; Python `str.lower` is modelled by ASCII `Char.toLower`
  (non-ASCII letters are non-alphanumeric for the `[^a-z0-9]+` regex either
  way, so they normalize to separators in both worlds);
* Python floats are modelled by `ℚ` (the arithmetic performed by the scorer
  is sums/products of small decimals, where rational arithmetic agrees with
  the intended real-number semantics);
* JSON payloads returned by the HTTP client are modelled by the `PyVal`
  inductive; the HTTP client itself is an external collaborator and is
  modelled as a function `fetch : ℕ → ℕ → PyVal` from (page, per_page) to
  the decoded response payload;
* `difflib.SequenceMatcher(None, a, b).ratio()` is an external standard
  library dependency; it is modelled as an explicit function parameter
  `ratio : List Char → List Char → ℚ`, with its documented range
  `0 ≤ ratio a b ≤ 1` taken as a hypothesis where a theorem needs it.
-/

namespace PteroMCP

/-- Text is modelled as a list of characters. -/
abbrev Str := List Char

/-- ASCII lower-case alphanumeric test: the character class `[a-z0-9]` of the
`_NON_ALNUM_RE` regex in `ai_tools.py`. -/
def isAlnumChar (c : Char) : Bool :=
  ('a' ≤ c && c ≤ 'z') || ('0' ≤ c && c ≤ '9')

/-- The whitespace characters stripped by Python `str.strip()` / split by
`str.split()` (ASCII portion). -/
def isPySpace (c : Char) : Bool :=
  c = ' ' || c = '\t' || c = '\n' || c = '\r' || c = '\x0b' || c = '\x0c'

/-- Python `str.lower()` (ASCII case folding; see module comment). -/
def lowerStr (s : Str) : Str := s.map Char.toLower

/-- Python `str.strip()`: drop leading and trailing whitespace. -/
def pyStrip (s : Str) : Str :=
  ((s.dropWhile isPySpace).reverse.dropWhile isPySpace).reverse

/-- `_NON_ALNUM_RE.sub(" ", s)`: replace every maximal run of
non-`[a-z0-9]` characters by a single space.  The boolean argument records
whether the previous character was part of such a run. -/
def collapseAux : Str → Bool → Str
  | [], _ => []
  | c :: rest, inRun =>
    if isAlnumChar c then c :: collapseAux rest false
    else if inRun then collapseAux rest true
    else ' ' :: collapseAux rest true

/-- `_NON_ALNUM_RE.sub(" ", s)` on a whole string. -/
def collapseRuns (s : Str) : Str := collapseAux s false

/-- `_normalize` from `ai_tools.py`:
`_NON_ALNUM_RE.sub(" ", text.lower()).strip()`. -/
def normalize (s : Str) : Str := pyStrip (collapseRuns (lowerStr s))

/-- `_compact` from `ai_tools.py`: `_NON_ALNUM_RE.sub("", text.lower())`. -/
def compact (s : Str) : Str := (lowerStr s).filter isAlnumChar

/-- Python `str.split()` with no separator: split on whitespace runs,
dropping empty tokens.  The accumulator holds the current token reversed. -/
def splitTokensAux : Str → Str → List Str
  | [], acc => if acc.isEmpty then [] else [acc.reverse]
  | c :: rest, acc =>
    if isPySpace c then
      if acc.isEmpty then splitTokensAux rest []
      else acc.reverse :: splitTokensAux rest []
    else splitTokensAux rest (c :: acc)

/-- Python `str.split()` with no separator. -/
def splitTokens (s : Str) : List Str := splitTokensAux s []

/-- Python `needle in hay` on strings: contiguous-substring test. -/
def isSubstring : Str → Str → Bool
  | needle, [] => needle.isEmpty
  | needle, hay@(_ :: rest) => needle.isPrefixOf hay || isSubstring needle rest

/-- `_token_match_score` from `ai_tools.py`: the fraction of query tokens
that prefix-match or occur inside some candidate token, scaled to 0–100. -/
def token_match_score (query candidate : Str) : ℚ :=
  let q_tokens := splitTokens (normalize query)
  let c_tokens := splitTokens (normalize candidate)
  if q_tokens.isEmpty || c_tokens.isEmpty then 0
  else
    let hits := (q_tokens.filter
      (fun qt => c_tokens.any (fun ct => qt.isPrefixOf ct || isSubstring qt ct))).length
    ((hits : ℚ) / (q_tokens.length : ℚ)) * 100

/-- `_string_similarity_score` from `ai_tools.py`.  `ratio` stands for
`difflib.SequenceMatcher(None, ·, ·).ratio()` (external collaborator, see
module comment). -/
def string_similarity_score (ratio : Str → Str → ℚ) (query candidate : Str) : ℚ :=
  let q_norm := normalize query
  let c_norm := normalize candidate
  if q_norm.isEmpty || c_norm.isEmpty then 0
  else
    let q_comp := compact query
    let c_comp := compact candidate
    if q_norm = c_norm || (!q_comp.isEmpty && q_comp = c_comp) then 100
    else
      let ratio_norm := ratio q_norm c_norm
      let ratio_comp := if !q_comp.isEmpty && !c_comp.isEmpty then ratio q_comp c_comp else 0
      let r := max ratio_norm ratio_comp * 100
      let token_score := token_match_score query candidate
      let bonus : ℚ :=
        if !q_comp.isEmpty && !c_comp.isEmpty then
          if q_comp.isPrefixOf c_comp then 12
          else if isSubstring q_comp c_comp then 8
          else if c_comp.isPrefixOf q_comp then 6
          else 0
        else 0
      let score := 11/20 * r + 9/20 * token_score + bonus
      if score < 0 then 0 else if score > 100 then 100 else score

/-! ## Decoded JSON payloads (Python values) -/

/-- A decoded JSON payload as the Python code sees it.  `pybool` is kept
separate from `pyint` (as `json.loads` produces), but note that Python's
`isinstance(x, int)` is *true* for booleans, which `isInstInt` reflects. -/
inductive PyVal where
  | pynone
  | pybool (b : Bool)
  | pyint (n : ℤ)
  | pyfloat (q : ℚ)
  | pystr (s : Str)
  | pylist (xs : List PyVal)
  | pydict (fields : List (String × PyVal))
deriving Inhabited

/-- `d.get(k)` for a Python dict (keys are unique in a decoded JSON object;
the first binding wins). -/
def dictGet (fields : List (String × PyVal)) (key : String) : Option PyVal :=
  (fields.find? (fun kv => kv.1 == key)).map Prod.snd

/-- `isinstance(v, int)` — in Python this includes `bool`. -/
def PyVal.isInstInt : PyVal → Bool
  | .pyint _ => true
  | .pybool _ => true
  | _ => false

/-- The integer value of a Python `int` (booleans count as 0/1); other
values never reach this in the embedded code paths. -/
def PyVal.asInt : PyVal → ℤ
  | .pyint n => n
  | .pybool b => if b then 1 else 0
  | _ => 0

/-- Python truthiness (`if not value`). -/
def pyTruthy : PyVal → Bool
  | .pynone => false
  | .pybool b => b
  | .pyint n => n != 0
  | .pyfloat q => q != 0
  | .pystr s => !s.isEmpty
  | .pylist xs => !xs.isEmpty
  | .pydict fs => !fs.isEmpty

/-- Python `str(v)` for the values the scorer can meet.  The code applies
`str` only to truthy scalars (strings, ints, bools); Python's rendering of
floats and containers is not needed by any claim and is represented by
placeholder text. -/
def pyStr : PyVal → Str
  | .pystr s => s
  | .pyint n => (toString n).toList
  | .pybool b => if b then "True".toList else "False".toList
  | .pynone => "None".toList
  | .pyfloat _ => "<float-repr-not-modelled>".toList
  | .pylist _ => "<list-repr-not-modelled>".toList
  | .pydict _ => "<dict-repr-not-modelled>".toList

/-! ## Envelope extraction (`_extract_list_items`, `_extract_pagination`) -/

/-- The record taken from one element of the `data` list: a dict item
yields its `attributes` sub-dict when that is a dict, otherwise the item
itself; non-dict items are skipped (`_extract_list_items` body). -/
def itemRecord : PyVal → Option (List (String × PyVal))
  | .pydict ifs =>
    some (match dictGet ifs "attributes" with
          | some (.pydict afs) => afs
          | _ => ifs)
  | _ => none

/-- `_extract_list_items` from `ai_tools.py`: the list of records of one
page envelope; any malformed shape degrades to the empty list. -/
def extract_list_items (payload : PyVal) : List (List (String × PyVal)) :=
  match payload with
  | .pydict fs =>
    match dictGet fs "data" with
    | some (.pylist xs) => xs.filterMap itemRecord
    | _ => []
  | _ => []

/-- `_extract_pagination` from `ai_tools.py`: `meta.pagination` of the
envelope when that path is a dict, otherwise the empty dict. -/
def extract_pagination (payload : PyVal) : List (String × PyVal) :=
  match payload with
  | .pydict fs =>
    match dictGet fs "meta" with
    | some (.pydict ms) =>
      match dictGet ms "pagination" with
      | some (.pydict ps) => ps
      | _ => []
    | _ => []
  | _ => []

/-! ## `_get_total` -/

/-- `str(total).isdigit()` for the values allowed through the
`isinstance(total, (int, float, str))` guard: a non-negative `int` renders
as digits, floats never do (their text always contains `.`, `e`, `inf` or
`nan`), bools render as `True`/`False`, and a string must be non-empty and
all ASCII digits (exotic Unicode digits are not modelled). -/
def pyStrIsDigit : PyVal → Bool
  | .pyint n => decide (0 ≤ n)
  | .pystr s => !s.isEmpty && s.all Char.isDigit
  | _ => false

/-- `isinstance(total, (int, float, str))`; Python `bool` is an `int`. -/
def isNumLike : PyVal → Bool
  | .pyint _ => true
  | .pybool _ => true
  | .pyfloat _ => true
  | .pystr _ => true
  | _ => false

/-- Decimal value of a digit string (`int(s)` for an all-digit `s`). -/
def digitsVal (s : Str) : ℤ :=
  s.foldl (fun a c => 10 * a + ((c.toNat : ℤ) - 48)) 0

/-- `int(total)` in the branch guarded by `isinstance … and str(…).isdigit()`
(only non-negative ints and digit strings can reach it). -/
def intOfTotal : PyVal → ℤ
  | .pyint n => n
  | .pystr s => digitsVal s
  | _ => 0

/-- `_get_total`, payload part: read `meta.pagination.total` and return it
as an `int` when the `isinstance`/`isdigit` guard passes, else 0. -/
def get_total (payload : PyVal) : ℤ :=
  match dictGet (extract_pagination payload) "total" with
  | some total => if isNumLike total && pyStrIsDigit total then intOfTotal total else 0
  | none => 0

/-- `_get_total` from `ai_tools.py`: one request for page 1 with
`per_page` 1, then read the declared total. -/
def get_total_client (fetch : ℕ → ℕ → PyVal) : ℤ :=
  get_total (fetch 1 1)

/-! ## `_iter_paginated` -/

/-- `per_page = max(1, min(int(per_page), 100))`. -/
def clampPerPage (pp : ℤ) : ℕ := (max 1 (min pp 100)).toNat

/-- `max_pages = max(1, int(max_pages))`. -/
def clampMaxPages (mp : ℤ) : ℕ := (max 1 mp).toNat

/-- The generator's stop test after yielding a page: stop when the declared
`total_pages` is an `int` already reached by the current page, or when the
page produced zero items. -/
def pageStop (payload : PyVal) (page : ℕ) : Bool :=
  (match dictGet (extract_pagination payload) "total_pages" with
   | some v => v.isInstInt && decide (v.asInt ≤ (page : ℤ))
   | none => false)
  || (extract_list_items payload).isEmpty

/-- The page loop of `_iter_paginated`: starting at `page` with `fuel`
pages of budget left, fetch each page (with the already-clamped `ppc`) and
record `(page, payload)`, stopping at `pageStop` or when the budget is
exhausted. -/
def iterPagesAux (fetch : ℕ → ℕ → PyVal) (ppc : ℕ) : ℕ → ℕ → List (ℕ × PyVal)
  | 0, _ => []
  | fuel + 1, page =>
    let payload := fetch page ppc
    if pageStop payload page then [(page, payload)]
    else (page, payload) :: iterPagesAux fetch ppc fuel (page + 1)

/-- `_iter_paginated` from `ai_tools.py`, as the sequence of fetched pages
with their payloads (the yielded records of a page are
`extract_list_items` of its payload). -/
def iter_paginated (fetch : ℕ → ℕ → PyVal) (per_page max_pages : ℤ) : List (ℕ × PyVal) :=
  iterPagesAux fetch (clampPerPage per_page) (clampMaxPages max_pages) 1

/-- The full stream of `(page, record)` pairs the generator yields when
consumed to exhaustion. -/
def pagesYields (pages : List (ℕ × PyVal)) : List (ℕ × List (String × PyVal)) :=
  pages.flatMap (fun pr => (extract_list_items pr.2).map (fun it => (pr.1, it)))

/-! ## `_fuzzy_search` -/

/-- The two record kinds searched (`kind="user"` / `kind="server"`). -/
inductive Kind where
  | user
  | server
deriving DecidableEq

/-- `limit = max(1, min(int(limit), 50))`. -/
def clampLimit (l : ℤ) : ℕ := (max 1 (min l 50)).toNat

/-- `attrs.get(k)`; an absent key behaves like `None` in every use the
search makes of it (truthiness test, `is not None` test, `str`). -/
def getAttr (attrs : List (String × PyVal)) (k : String) : PyVal :=
  (dictGet attrs k).getD .pynone

/-- `str(v) if v is not None else None` (used for `external_id` / `id`). -/
def strOrNoneVal : PyVal → PyVal
  | .pynone => .pynone
  | v => .pystr (pyStr v)

/-- The user search's full name:
`" ".join(p for p in [str(first or "").strip(), str(last or "").strip()] if p).strip()`. -/
def fullNameSearch (attrs : List (String × PyVal)) : Str :=
  let f := pyStrip (pyStr (if pyTruthy (getAttr attrs "first_name")
                           then getAttr attrs "first_name" else .pystr []))
  let l := pyStrip (pyStr (if pyTruthy (getAttr attrs "last_name")
                           then getAttr attrs "last_name" else .pystr []))
  pyStrip (List.intercalate [' '] (([f, l]).filter (fun p => !p.isEmpty)))

/-- The prioritized field-candidate list for a user record. -/
def userFields (attrs : List (String × PyVal)) : List (String × PyVal) :=
  [("username", getAttr attrs "username"),
   ("email", getAttr attrs "email"),
   ("name", if (fullNameSearch attrs).isEmpty then PyVal.pynone
            else .pystr (fullNameSearch attrs)),
   ("external_id", strOrNoneVal (getAttr attrs "external_id")),
   ("uuid", getAttr attrs "uuid"),
   ("id", strOrNoneVal (getAttr attrs "id"))]

/-- The prioritized field-candidate list for a server record. -/
def serverFields (attrs : List (String × PyVal)) : List (String × PyVal) :=
  [("name", getAttr attrs "name"),
   ("identifier", getAttr attrs "identifier"),
   ("uuid", getAttr attrs "uuid"),
   ("external_id", strOrNoneVal (getAttr attrs "external_id")),
   ("id", strOrNoneVal (getAttr attrs "id")),
   ("description", getAttr attrs "description")]

/-- Field-candidate list by record kind. -/
def fieldsFor : Kind → List (String × PyVal) → List (String × PyVal)
  | .user, attrs => userFields attrs
  | .server, attrs => serverFields attrs

/-- The best-scoring field loop of `_fuzzy_search`: skip falsy values,
score `str(value)`, keep the strictly highest score (ties keep the
earlier field). -/
def bestFieldScore (ratio : Str → Str → ℚ) (query : Str)
    (fields : List (String × PyVal)) : ℚ × Option String :=
  fields.foldl
    (fun acc fv =>
      if pyTruthy fv.2 then
        let s := string_similarity_score ratio query (pyStr fv.2)
        if s > acc.1 then (s, some fv.1) else acc
      else acc)
    (0, none)

/-- One accepted match: (score, record attributes, matched field name). -/
abbrev ScoredMatch := ℚ × List (String × PyVal) × Option String

/-- The mutable state of one `_fuzzy_search` call.  `processed` is a ghost
trace (every `(page, record)` pair the loop consumed, in order) and
`broke` records whether the early-termination `break` fired; neither
exists as data in the Python code, they only make the scan observable to
theorems. -/
structure ScanState where
  itemsScanned : ℕ
  pagesScanned : List ℕ
  scored : List ScoredMatch
  processed : List (ℕ × List (String × PyVal))
  broke : Bool

/-- The state before the scan loop. -/
def initState : ScanState := ⟨0, [], [], [], false⟩

/-- `pages_scanned.add(page)` on a Python set, keeping insertion order. -/
def insertPage (p : ℕ) (ps : List ℕ) : List ℕ :=
  if p ∈ ps then ps else ps ++ [p]

/-- The parameters of one `_fuzzy_search` call after validation:
`lim` is the clamped limit, `q` the stripped query. -/
structure SParams where
  ratio : Str → Str → ℚ
  kind : Kind
  q : Str
  minScore : ℚ
  lim : ℕ

/-- The loop body of `_fuzzy_search` for one yielded record: bump the scan
counters, compute the best field score, and retain the match when it
reaches `minScore` (`consider`). -/
def processOne (P : SParams) (page : ℕ) (attrs : List (String × PyVal))
    (st : ScanState) : ScanState :=
  let st1 : ScanState :=
    { st with itemsScanned := st.itemsScanned + 1,
              pagesScanned := insertPage page st.pagesScanned,
              processed := st.processed ++ [(page, attrs)] }
  let bs := bestFieldScore P.ratio P.q (fieldsFor P.kind attrs)
  if P.minScore ≤ bs.1 then
    { st1 with scored := st1.scored ++ [(bs.1, attrs, bs.2)] }
  else st1

/-- Consume the records of one page in order; the returned flag is true
when the early-termination condition (`best_score >= 99.5 and
len(scored) >= limit`) fired, in which case the rest of the page is not
consumed. -/
def processItems (P : SParams) (page : ℕ) :
    List (List (String × PyVal)) → ScanState → ScanState × Bool
  | [], st => (st, false)
  | attrs :: rest, st =>
    let st2 := processOne P page attrs st
    if 199/2 ≤ (bestFieldScore P.ratio P.q (fieldsFor P.kind attrs)).1
       ∧ P.lim ≤ st2.scored.length
    then (st2, true)
    else processItems P page rest st2

/-- Drive the scan over the fetched pages; a `break` inside a page stops
the whole loop (later pages of the list are never consumed, matching the
lazy generator, which is then never resumed and fetches nothing more). -/
def runScan (P : SParams) : List (ℕ × PyVal) → ScanState → ScanState
  | [], st => st
  | (page, payload) :: rest, st =>
    let r := processItems P page (extract_list_items payload) st
    if r.2 then { r.1 with broke := true } else runScan P rest r.1

/-- Stable insertion into a score-descending list: the new element goes
before the first element whose score it reaches, so an element inserted
later never overtakes an equal-scored earlier one. -/
def insertDesc (x : ScoredMatch) : List ScoredMatch → List ScoredMatch
  | [] => [x]
  | y :: ys => if y.1 ≤ x.1 then x :: y :: ys else y :: insertDesc x ys

/-- `scored.sort(key=lambda t: t[0], reverse=True)`: Python's sort is
stable, and stable descending sort by score is the unique reordering this
insertion sort produces. -/
def sortByScoreDesc : List ScoredMatch → List ScoredMatch
  | [] => []
  | x :: xs => insertDesc x (sortByScoreDesc xs)

/-- The only error `_fuzzy_search` raises itself (`ValueError` on an
empty/whitespace query). -/
inductive SearchError where
  | invalidInput
deriving DecidableEq

/-- The value returned by `_fuzzy_search`.  `matches`, `scannedItems`
(`scanned.items`) and `scannedPages` (`scanned.pages`) mirror the Python
return dict, with a match kept as its `(score, attributes, matched_on)`
triple (the Scored Match of the spec) rather than its compact summary.
`accepted`, `processed` and `broke` are ghost trace fields carried over
from `ScanState` for the theorems.  (`topMatches` is the Python dict's
`"matches"` key; `matches` is reserved syntax in Lean.) -/
structure SearchResult where
  query : Str
  topMatches : List ScoredMatch
  scannedItems : ℕ
  scannedPages : ℕ
  accepted : List ScoredMatch
  processed : List (ℕ × List (String × PyVal))
  broke : Bool

/-- `_fuzzy_search` from `ai_tools.py`. -/
def fuzzy_search (ratio : Str → Str → ℚ) (fetch : ℕ → ℕ → PyVal) (query : Str)
    (limit max_pages per_page : ℤ) (min_score : ℚ) (kind : Kind) :
    Except SearchError SearchResult :=
  let q := pyStrip query
  if q.isEmpty then .error .invalidInput
  else
    let P : SParams := ⟨ratio, kind, q, min_score, clampLimit limit⟩
    let st := runScan P (iter_paginated fetch per_page max_pages) initState
    .ok { query := q,
          topMatches := (sortByScoreDesc st.scored).take P.lim,
          scannedItems := st.itemsScanned,
          scannedPages := st.pagesScanned.length,
          accepted := st.scored,
          processed := st.processed,
          broke := st.broke }

/-! ## Spec-side models used to compare against the code (C9) -/

/-- Truncation toward zero of a rational, i.e. Python `int(x)` on a float
`x`; used only by the spec-side reading of the totals rule. -/
def ratTrunc (x : ℚ) : ℤ := if 0 ≤ x then ⌊x⌋ else -⌊-x⌋

/-- Modelled from the spec: the totals rule as the claim words it —
return the declared `meta.pagination.total` "as an integer" whenever it is
numeric (an int or a float), and 0 when it is undeclared or non-numeric.
Compared against `get_total`, the embedding of the code. -/
def get_total_spec (payload : PyVal) : ℤ :=
  match dictGet (extract_pagination payload) "total" with
  | some (.pyint n) => n
  | some (.pyfloat x) => ratTrunc x
  | _ => 0

/-- Modelled from the amended claim: the total actually returned is the
declared value only when it is a non-negative int or a string of decimal
digits; floats, negative ints, bools and everything else give 0. -/
def get_total_amended_spec (payload : PyVal) : ℤ :=
  match dictGet (extract_pagination payload) "total" with
  | some (.pyint n) => if 0 ≤ n then n else 0
  | some (.pystr s) => if !s.isEmpty && s.all Char.isDigit then digitsVal s else 0
  | _ => 0

/-! ## Concrete fixtures used by witnesses and scenario claims -/

/-- A trivial stand-in for `SequenceMatcher.ratio` (always 0, inside the
documented range). -/
def ratioZero : Str → Str → ℚ := fun _ _ => 0

/-- An upstream whose every page decodes to an empty JSON object. -/
def emptyFetch : ℕ → ℕ → PyVal := fun _ _ => .pydict []

/-- The query of the spec's `"john"` scenario. -/
def johnQ : Str := "john".toList

/-- The candidate full name of the spec's `"john"` scenario. -/
def johnSmith : Str := "John Smith".toList

/-- A user record whose only populated fields are the name parts. -/
def johnAttrs : List (String × PyVal) :=
  [("first_name", .pystr "John".toList), ("last_name", .pystr "Smith".toList)]

/-- A page-1 envelope containing exactly the `johnAttrs` record. -/
def johnPayload : PyVal :=
  .pydict [("data", .pylist [.pydict [("attributes", .pydict johnAttrs)]])]

/-- An upstream with the `johnAttrs` record on page 1 and nothing after. -/
def johnFetch : ℕ → ℕ → PyVal :=
  fun page _ => if page = 1 then johnPayload else .pydict []

/-- A user record with the exact username `"abc"`. -/
def abcAttrs : List (String × PyVal) := [("username", .pystr "abc".toList)]

/-- A page envelope with two copies of the `abcAttrs` record. -/
def abcPayload : PyVal :=
  .pydict [("data", .pylist [.pydict [("attributes", .pydict abcAttrs)],
                             .pydict [("attributes", .pydict abcAttrs)]])]

/-- An upstream that serves `abcPayload` on every page. -/
def abcFetch : ℕ → ℕ → PyVal := fun _ _ => abcPayload

/-- Search parameters for an exact-match query `"abc"` with limit 1. -/
def abcParams : SParams := ⟨ratioZero, .user, "abc".toList, 55, 1⟩

/-- The result of a search over `emptyFetch` for the query `"q"`. -/
def emptyOkResult : SearchResult := ⟨"q".toList, [], 0, 0, [], [], false⟩

/-- An envelope declaring `meta.pagination.total = 42` (an int). -/
def totalsIntPayload : PyVal :=
  .pydict [("meta", .pydict [("pagination", .pydict [("total", .pyint 42)])])]

/-- An envelope declaring `meta.pagination.total = 42.0` (a float). -/
def totalsFloatPayload : PyVal :=
  .pydict [("meta", .pydict [("pagination", .pydict [("total", .pyfloat 42)])])]

/-! ## Lemmas about the Normalizer -/

theorem alnum_not_space {c : Char} (hc : isAlnumChar c = true) : isPySpace c = false := by
  simp only [isPySpace, Bool.or_eq_false_iff, decide_eq_false_iff_not]
  refine ⟨⟨⟨⟨⟨?_, ?_⟩, ?_⟩, ?_⟩, ?_⟩, ?_⟩ <;> (rintro rfl; exact absurd hc (by decide))

theorem mem_collapseAux {c : Char} (hc : isAlnumChar c = true) :
    ∀ (s : Str) (b : Bool), c ∈ s → c ∈ collapseAux s b := by
  intro s
  induction s with
  | nil => intro b h; cases h
  | cons a rest ih =>
    intro b h
    by_cases ha : isAlnumChar a = true
    · rw [collapseAux, if_pos ha]
      rcases List.mem_cons.mp h with rfl | hr
      · exact List.mem_cons_self _ _
      · exact List.mem_cons_of_mem _ (ih false hr)
    · have hca : c ≠ a := fun e => ha (e ▸ hc)
      have hr : c ∈ rest := by
        rcases List.mem_cons.mp h with rfl | hr
        · exact absurd rfl hca
        · exact hr
      rw [collapseAux, if_neg ha]
      cases b with
      | true => simpa using ih true hr
      | false => exact List.mem_cons_of_mem _ (ih true hr)

theorem mem_dropWhile_of_neg {p : Char → Bool} {c : Char} (hc : p c = false) :
    ∀ {s : Str}, c ∈ s → c ∈ s.dropWhile p := by
  intro s
  induction s with
  | nil => intro h; cases h
  | cons a rest ih =>
    intro h
    by_cases ha : p a = true
    · rw [List.dropWhile_cons, if_pos ha]
      rcases List.mem_cons.mp h with rfl | hr
      · exact absurd ha (by simp [hc])
      · exact ih hr
    · rw [List.dropWhile_cons, if_neg ha]
      exact h

theorem mem_pyStrip {c : Char} (hc : isPySpace c = false) {s : Str}
    (h : c ∈ s) : c ∈ pyStrip s := by
  unfold pyStrip
  exact List.mem_reverse.mpr (mem_dropWhile_of_neg hc
    (List.mem_reverse.mpr (mem_dropWhile_of_neg hc h)))

/-- A string whose compact form is non-empty has a non-empty normalized
form (both forms retain exactly the alphanumeric characters). -/
theorem normalize_ne_nil_of_compact_ne_nil {s : Str} (h : compact s ≠ []) :
    normalize s ≠ [] := by
  obtain ⟨c, hmem, hca⟩ : ∃ c ∈ lowerStr s, isAlnumChar c = true := by
    by_contra hnone
    push_neg at hnone
    refine h (List.filter_eq_nil_iff.mpr ?_)
    intro a ha
    exact fun hb => (hnone a ha) hb
  have h1 : c ∈ collapseRuns (lowerStr s) := mem_collapseAux hca _ false hmem
  have h2 : c ∈ normalize s := mem_pyStrip (alnum_not_space hca) h1
  intro e
  rw [e] at h2
  cases h2

/-! ## Claim theorems: the Similarity Scorer -/

/-- C2: for every ratio function and all query/candidate strings, the
similarity score lies in [0, 100], and it is exactly 0 whenever either
string's normalized form is empty (in particular for empty input or input
made only of non-alphanumeric characters). -/
theorem C2_score_range (ratio : Str → Str → ℚ) (q c : Str) :
    0 ≤ string_similarity_score ratio q c ∧
    string_similarity_score ratio q c ≤ 100 ∧
    ((normalize q = [] ∨ normalize c = []) → string_similarity_score ratio q c = 0) := by
  simp only [string_similarity_score]
  split_ifs <;>
    refine ⟨?_, ?_, fun hemp => ?_⟩ <;>
    first
      | rfl
      | linarith
      | (rcases hemp with he | he <;> simp_all [List.isEmpty_iff])

/-- C2 witness: instance of the range/empty facts at concrete inputs. -/
theorem C2_score_range_witness :
    0 ≤ string_similarity_score (fun _ _ => 0) "a".toList "b".toList ∧
    string_similarity_score (fun _ _ => 0) [] "b".toList = 0 :=
  ⟨(C2_score_range (fun _ _ => 0) "a".toList "b".toList).1,
   (C2_score_range (fun _ _ => 0) [] "b".toList).2.2 (Or.inl rfl)⟩

/-- Exact-match short-circuit for a string against itself (shared helper). -/
theorem score_self_100 (ratio : Str → Str → ℚ) {q : Str} (h : normalize q ≠ []) :
    string_similarity_score ratio q q = 100 := by
  simp only [string_similarity_score]
  rw [if_neg (by simp [List.isEmpty_iff, h]), if_pos (by simp)]

/-- C3 counterexample: as stated the claim quantifies over all strings, but
for two strings whose normalized forms are both empty (e.g. the empty
string against itself) the normalized forms are equal while the score is 0,
not 100, because the empty guard precedes the exact-match short-circuit. -/
theorem C3_counterexample :
    ¬ ∀ (ratio : Str → Str → ℚ) (q c : Str),
        (normalize q = normalize c ∨ (compact q ≠ [] ∧ compact q = compact c)) →
        string_similarity_score ratio q c = 100 := by
  intro h
  have h0 := h (fun _ _ => 0) [] [] (Or.inl rfl)
  rw [show string_similarity_score (fun _ _ => 0) [] [] = 0 from rfl] at h0
  exact absurd h0 (by norm_num)

/-- C3 (amended): if the normalized forms are equal *and non-empty*, or
both compact forms are non-empty and equal, the score is exactly 100; in
particular score(q, q) = 100 for every q with non-empty normalized form. -/
theorem C3_exact_match (ratio : Str → Str → ℚ) (q c : Str) :
    ((normalize q = normalize c ∧ normalize q ≠ []) ∨
     (compact q ≠ [] ∧ compact q = compact c) →
      string_similarity_score ratio q c = 100) ∧
    (normalize q ≠ [] → string_similarity_score ratio q q = 100) := by
  constructor
  · intro h
    have hq : normalize q ≠ [] := by
      rcases h with ⟨_, hne⟩ | ⟨hne, _⟩
      · exact hne
      · exact normalize_ne_nil_of_compact_ne_nil hne
    have hc : normalize c ≠ [] := by
      rcases h with ⟨heq, hne⟩ | ⟨hne, heq⟩
      · rw [← heq]; exact hne
      · rw [heq] at hne; exact normalize_ne_nil_of_compact_ne_nil hne
    simp only [string_similarity_score]
    rw [if_neg (by simp [List.isEmpty_iff, hq, hc]), if_pos]
    rcases h with ⟨heq, _⟩ | ⟨hne, heq⟩
    · simp [heq]
    · have hne2 : compact c ≠ [] := by rw [← heq]; exact hne
      simp [List.isEmpty_iff, hne, heq, hne2]
  · intro hq
    simp only [string_similarity_score]
    rw [if_neg (by simp [List.isEmpty_iff, hq]), if_pos (by simp)]

/-- C3 witness: the amended exact-match rule at concrete inputs
(`"jsmith"` against itself). -/
theorem C3_exact_match_witness :
    string_similarity_score (fun _ _ => 0) "jsmith".toList "jsmith".toList = 100 :=
  (C3_exact_match (fun _ _ => 0) "jsmith".toList "jsmith".toList).1
    (Or.inl ⟨rfl, by decide⟩)

/-- C7: the query `"john"` against the candidate `"John Smith"` has token
score exactly 100 (the single query token prefix-matches the candidate
token `"john"`); for every ratio function inside SequenceMatcher's
documented range [0,1] the final score is strictly above 55; and a user
record whose best-scoring field value is `"John Smith"` is returned (with
`matched_on = "name"`) by a search with the default `minScore` 55. -/
theorem C7_john_scenario (ratio : Str → Str → ℚ)
    (hr : ∀ a b, 0 ≤ ratio a b ∧ ratio a b ≤ 1) :
    token_match_score johnQ johnSmith = 100 ∧
    55 < string_similarity_score ratio johnQ johnSmith ∧
    fuzzy_search ratio johnFetch johnQ 10 5 100 55 .user =
      .ok { query := johnQ,
            topMatches := [(string_similarity_score ratio johnQ johnSmith, johnAttrs, some "name")],
            scannedItems := 1, scannedPages := 1,
            accepted := [(string_similarity_score ratio johnQ johnSmith, johnAttrs, some "name")],
            processed := [(1, johnAttrs)], broke := false } := by
  have hfil : (List.filter
      (fun qt => (splitTokens (normalize johnSmith)).any
        (fun ct => List.isPrefixOf qt ct || isSubstring qt ct))
      (splitTokens (normalize johnQ))).length = 1 := by decide
  have hlen : (splitTokens (normalize johnQ)).length = 1 := by decide
  have htok : token_match_score johnQ johnSmith = 100 := by
    simp only [token_match_score]
    rw [if_neg (by decide), hfil, hlen]
    norm_num
  have hA : ¬ (List.isEmpty (normalize johnQ) || List.isEmpty (normalize johnSmith)) = true := by
    decide
  have hB : ¬ (decide (normalize johnQ = normalize johnSmith) ||
      (!List.isEmpty (compact johnQ) && decide (compact johnQ = compact johnSmith))) = true := by
    decide
  have hC : (!List.isEmpty (compact johnQ) && !List.isEmpty (compact johnSmith)) = true := by
    decide
  have hD : List.isPrefixOf (compact johnQ) (compact johnSmith) = true := by decide
  have hm100 : 0 ≤ max (ratio (normalize johnQ) (normalize johnSmith))
      (ratio (compact johnQ) (compact johnSmith)) * 100 :=
    mul_nonneg (le_trans (hr _ _).1 (le_max_left _ _)) (by norm_num)
  have hs : 55 < string_similarity_score ratio johnQ johnSmith := by
    simp only [string_similarity_score]
    rw [if_neg hA, if_neg hB, if_pos hC, if_pos hC, if_pos hD, htok]
    split_ifs with h1 h2
    · linarith
    · norm_num
    · linarith
  have hs0 : (0 : ℚ) < string_similarity_score ratio johnQ johnSmith := by linarith
  refine ⟨htok, hs, ?_⟩
  have hbest : bestFieldScore ratio johnQ (userFields johnAttrs)
      = if string_similarity_score ratio johnQ johnSmith > 0
        then (string_similarity_score ratio johnQ johnSmith, some "name")
        else (0, none) := rfl
  have hbest2 : bestFieldScore ratio johnQ (userFields johnAttrs)
      = (string_similarity_score ratio johnQ johnSmith, some "name") := by
    rw [hbest, if_pos hs0]
  have hpi : processItems ⟨ratio, Kind.user, johnQ, 55, clampLimit 10⟩ 1
      (extract_list_items johnPayload) initState
      = ({ itemsScanned := 1, pagesScanned := [1],
           scored := [(string_similarity_score ratio johnQ johnSmith, johnAttrs, some "name")],
           processed := [(1, johnAttrs)], broke := false }, false) := by
    show processItems ⟨ratio, Kind.user, johnQ, 55, clampLimit 10⟩ 1 [johnAttrs] initState = _
    simp only [processItems, processOne, fieldsFor]
    rw [hbest2]
    rw [if_pos (le_of_lt hs)]
    rw [if_neg (fun hco => absurd hco.2 (by
      simp only [initState, List.length_append, List.length_cons, List.length_nil]
      decide))]
    rfl
  have hrun : runScan ⟨ratio, Kind.user, johnQ, 55, clampLimit 10⟩
      [(1, johnPayload), (2, PyVal.pydict [])] initState
      = { itemsScanned := 1, pagesScanned := [1],
          scored := [(string_similarity_score ratio johnQ johnSmith, johnAttrs, some "name")],
          processed := [(1, johnAttrs)], broke := false } := by
    simp only [runScan]
    rw [hpi]
    rfl
  show fuzzy_search ratio johnFetch johnQ 10 5 100 55 .user = _
  unfold fuzzy_search
  rw [if_neg (by decide : ¬ (pyStrip johnQ).isEmpty = true)]
  rw [show iter_paginated johnFetch 100 5 = [(1, johnPayload), (2, PyVal.pydict [])] from rfl]
  rw [show pyStrip johnQ = johnQ from rfl]
  dsimp only
  rw [hrun]
  rfl

/-- C7 witness: the scenario facts instantiated at the all-zero ratio
function. -/
theorem C7_john_scenario_witness :
    token_match_score johnQ johnSmith = 100 ∧
    55 < string_similarity_score ratioZero johnQ johnSmith :=
  ⟨(C7_john_scenario ratioZero (fun _ _ => by norm_num [ratioZero])).1,
   (C7_john_scenario ratioZero (fun _ _ => by norm_num [ratioZero])).2.1⟩

/-- C4: a query that is empty after stripping whitespace makes the search
fail immediately with the invalid-input error; the result is the same for
every upstream `fetch`, so no page is requested and no record scanned. -/
theorem C4_empty_query (ratio : Str → Str → ℚ) (fetch : ℕ → ℕ → PyVal) (q : Str)
    (limit max_pages per_page : ℤ) (min_score : ℚ) (kind : Kind)
    (h : pyStrip q = []) :
    fuzzy_search ratio fetch q limit max_pages per_page min_score kind =
      .error .invalidInput := by
  unfold fuzzy_search
  rw [if_pos (by simp [h, List.isEmpty_iff])]

/-- C4 witness: a whitespace-only query fails on a concrete upstream. -/
theorem C4_empty_query_witness :
    fuzzy_search ratioZero emptyFetch "   ".toList 10 5 100 55 .user =
      .error .invalidInput :=
  C4_empty_query ratioZero emptyFetch "   ".toList 10 5 100 55 .user (by decide)

/-- C8: malformed envelopes degrade instead of failing: a payload whose
`data` key is absent or not a list (including non-dict payloads) yields no
records; a dict item without a dict `attributes` is used itself as the
record; a payload without a dict `meta.pagination` yields the empty
pagination dict; and with empty pagination metadata the paginator's stop
test reduces to the empty-page rule alone.  (All extraction functions are
total, so no envelope shape raises.) -/
theorem C8_malformed_envelope :
    (∀ p : PyVal, (∀ fs xs, p = .pydict fs → dictGet fs "data" ≠ some (.pylist xs)) →
       extract_list_items p = []) ∧
    (∀ ifs, (∀ afs, dictGet ifs "attributes" ≠ some (.pydict afs)) →
       itemRecord (.pydict ifs) = some ifs) ∧
    (∀ p : PyVal, (∀ fs ms ps, p = .pydict fs → dictGet fs "meta" = some (.pydict ms) →
        dictGet ms "pagination" ≠ some (.pydict ps)) →
       extract_pagination p = []) ∧
    (∀ p page, extract_pagination p = [] →
       pageStop p page = (extract_list_items p).isEmpty) := by
  refine ⟨?_, ?_, ?_, ?_⟩
  · intro p h
    cases p <;> try rfl
    case pydict fs =>
      simp only [extract_list_items]
      cases hd : dictGet fs "data" with
      | none => rfl
      | some v =>
        cases v <;> try rfl
        case pylist xs => exact absurd hd (h fs xs rfl)
  · intro ifs h
    simp only [itemRecord]
  · intro p h
    cases p <;> try rfl
    case pydict fs =>
      simp only [extract_pagination]
      cases hm : dictGet fs "meta" with
      | none => rfl
      | some v =>
        cases v <;> try rfl
        case pydict ms =>
          dsimp only
          cases hp : dictGet ms "pagination" with
          | none => rfl
          | some w =>
            cases w <;> try rfl
            case pydict ps => exact absurd hp (h fs ms ps rfl hm)
  · intro p page h
    simp [pageStop, h, dictGet]

/-- C8 witness: the degradations at concrete malformed envelopes. -/
theorem C8_malformed_envelope_witness :
    extract_list_items (.pyint 3) = [] ∧
    itemRecord (.pydict [("id", PyVal.pyint 1)]) = some [("id", PyVal.pyint 1)] ∧
    extract_pagination (.pydict []) = [] ∧
    pageStop (.pydict []) 1 = (extract_list_items (.pydict [])).isEmpty := by
  refine ⟨C8_malformed_envelope.1 _ (fun fs xs h => PyVal.noConfusion h), ?_, ?_, ?_⟩
  · refine C8_malformed_envelope.2.1 _ (fun afs h => ?_)
    rw [show dictGet [("id", PyVal.pyint 1)] "attributes" = none from rfl] at h
    exact Option.noConfusion h
  · refine C8_malformed_envelope.2.2.1 _ (fun fs ms ps h1 h2 => ?_)
    cases h1
    rw [show dictGet ([] : List (String × PyVal)) "meta" = none from rfl] at h2
    exact Option.noConfusion h2
  · exact C8_malformed_envelope.2.2.2 _ 1 rfl

/-- C9 counterexample: a collection whose envelope declares the numeric
total `42.0` (a float).  The claim's rule returns it as the integer 42,
but the code returns 0, because `str(total).isdigit()` is never true for
a float. -/
theorem C9_counterexample :
    get_total totalsFloatPayload = 0 ∧
    get_total_spec totalsFloatPayload = 42 ∧
    ¬ ∀ p, get_total p = get_total_spec p := by
  have h0 : get_total totalsFloatPayload = 0 := rfl
  have h42 : get_total_spec totalsFloatPayload = 42 := by
    rw [show get_total_spec totalsFloatPayload = ratTrunc 42 from rfl]
    norm_num [ratTrunc]
  refine ⟨h0, h42, fun h => ?_⟩
  have he := h totalsFloatPayload
  rw [h0, h42] at he
  exact absurd he (by norm_num)

/-- C9 (amended): the totals operation requests page 1 with `per_page` 1
and returns the declared `meta.pagination.total` when it is a
non-negative int or a string of decimal digits (parsed as an integer),
and 0 in every other case — undeclared, float, negative int, bool,
non-digit string, or non-scalar; in particular a declared total of 42
yields 42. -/
theorem C9_totals (fetch : ℕ → ℕ → PyVal) :
    get_total_client fetch = get_total (fetch 1 1) ∧
    (∀ p, get_total p = get_total_amended_spec p) ∧
    get_total totalsIntPayload = 42 := by
  refine ⟨rfl, ?_, rfl⟩
  intro p
  simp only [get_total, get_total_amended_spec]
  cases hd : dictGet (extract_pagination p) "total" with
  | none => rfl
  | some v => cases v <;> simp [isNumLike, pyStrIsDigit, intOfTotal]

/-! ## Lemmas about the Paginator -/

theorem iterPagesAux_map_fst (fetch : ℕ → ℕ → PyVal) (ppc : ℕ) :
    ∀ (fuel page : ℕ), (iterPagesAux fetch ppc fuel page).map Prod.fst =
      List.range' page (iterPagesAux fetch ppc fuel page).length := by
  intro fuel
  induction fuel with
  | zero => intro page; rfl
  | succ n ih =>
    intro page
    simp only [iterPagesAux]
    split_ifs with h
    · rfl
    · simp only [List.map_cons, List.length_cons, ih (page + 1)]
      rfl

theorem iterPagesAux_length_le (fetch : ℕ → ℕ → PyVal) (ppc : ℕ) :
    ∀ (fuel page : ℕ), (iterPagesAux fetch ppc fuel page).length ≤ fuel := by
  intro fuel
  induction fuel with
  | zero => intro page; exact le_refl 0
  | succ n ih =>
    intro page
    simp only [iterPagesAux]
    split_ifs with h
    · simp
    · simpa using Nat.succ_le_succ (ih (page + 1))

theorem iterPagesAux_length_pos (fetch : ℕ → ℕ → PyVal) (ppc : ℕ)
    (fuel page : ℕ) (hf : 0 < fuel) : 0 < (iterPagesAux fetch ppc fuel page).length := by
  cases fuel with
  | zero => exact absurd hf (by omega)
  | succ n =>
    simp only [iterPagesAux]
    split_ifs with h <;> simp

theorem iterPagesAux_payload (fetch : ℕ → ℕ → PyVal) (ppc : ℕ) :
    ∀ (fuel page : ℕ) (pr : ℕ × PyVal), pr ∈ iterPagesAux fetch ppc fuel page →
      pr.2 = fetch pr.1 ppc := by
  intro fuel
  induction fuel with
  | zero => intro page pr h; cases h
  | succ n ih =>
    intro page pr h
    rw [iterPagesAux] at h
    split_ifs at h with hstop
    · rcases List.mem_singleton.mp h with rfl
      rfl
    · rcases List.mem_cons.mp h with rfl | hr
      · rfl
      · exact ih (page + 1) pr hr

theorem iterPagesAux_no_stop (fetch : ℕ → ℕ → PyVal) (ppc : ℕ) :
    ∀ (fuel page : ℕ) (pr : ℕ × PyVal),
      pr ∈ (iterPagesAux fetch ppc fuel page).dropLast →
      pageStop pr.2 pr.1 = false := by
  intro fuel
  induction fuel with
  | zero => intro page pr h; simp [iterPagesAux] at h
  | succ n ih =>
    intro page pr h
    rw [iterPagesAux] at h
    split_ifs at h with hstop
    · simp at h
    · cases hrest : iterPagesAux fetch ppc n (page + 1) with
      | nil => rw [hrest] at h; simp [List.dropLast] at h
      | cons y ys =>
        rw [hrest] at h
        simp only [List.dropLast] at h
        rcases List.mem_cons.mp h with rfl | hr
        · simpa using hstop
        · exact ih (page + 1) pr (by rw [hrest]; simpa [List.dropLast] using hr)

theorem iterPagesAux_last_stop (fetch : ℕ → ℕ → PyVal) (ppc : ℕ) :
    ∀ (fuel page : ℕ) (pr : ℕ × PyVal),
      (iterPagesAux fetch ppc fuel page).length < fuel →
      (iterPagesAux fetch ppc fuel page).getLast? = some pr →
      pageStop pr.2 pr.1 = true := by
  intro fuel
  induction fuel with
  | zero => intro page pr h _; exact absurd h (by omega)
  | succ n ih =>
    intro page pr hlen hlast
    rw [iterPagesAux] at hlen hlast
    split_ifs at hlen hlast with hstop
    · rcases Option.some.inj hlast.symm with rfl
      exact hstop
    · have hlen2 : (iterPagesAux fetch ppc n (page + 1)).length < n := by
        simpa using hlen
      have hpos : 0 < (iterPagesAux fetch ppc n (page + 1)).length :=
        iterPagesAux_length_pos fetch ppc n (page + 1) (by omega)
      obtain ⟨y, ys, hys⟩ := List.exists_cons_of_ne_nil
        (List.ne_nil_of_length_pos hpos)
      rw [hys, List.getLast?_cons_cons] at hlast
      exact ih (page + 1) pr hlen2 (by rw [hys]; exact hlast)

/-- C5: the paginator requests consecutive pages in ascending order
starting at 1, each with the per-page size clamped into [1,100]; it
requests at least one and at most `max(1, maxPages)` pages; every
non-final page fails the stop test; and if it stopped short of the page
budget then the final page satisfied the stop test (declared total pages
reached by an integer `total_pages`, or a zero-item page). -/
theorem C5_paginator (fetch : ℕ → ℕ → PyVal) (per_page max_pages : ℤ) :
    1 ≤ clampPerPage per_page ∧ clampPerPage per_page ≤ 100 ∧
    1 ≤ clampMaxPages max_pages ∧
    (iter_paginated fetch per_page max_pages).map Prod.fst =
      List.range' 1 (iter_paginated fetch per_page max_pages).length ∧
    1 ≤ (iter_paginated fetch per_page max_pages).length ∧
    (iter_paginated fetch per_page max_pages).length ≤ clampMaxPages max_pages ∧
    (∀ pr ∈ iter_paginated fetch per_page max_pages,
       pr.2 = fetch pr.1 (clampPerPage per_page)) ∧
    (∀ pr ∈ (iter_paginated fetch per_page max_pages).dropLast,
       pageStop pr.2 pr.1 = false) ∧
    (∀ pr, (iter_paginated fetch per_page max_pages).getLast? = some pr →
       (iter_paginated fetch per_page max_pages).length < clampMaxPages max_pages →
       pageStop pr.2 pr.1 = true) := by
  refine ⟨?_, ?_, ?_, iterPagesAux_map_fst fetch _ _ 1, ?_, ?_,
          fun pr h => iterPagesAux_payload fetch _ _ 1 pr h,
          fun pr h => iterPagesAux_no_stop fetch _ _ 1 pr h,
          fun pr hl hlen => iterPagesAux_last_stop fetch _ _ 1 pr hlen hl⟩
  · simp only [clampPerPage]; omega
  · simp only [clampPerPage]; omega
  · simp only [clampMaxPages]; omega
  · exact iterPagesAux_length_pos fetch _ _ 1 (by simp only [clampMaxPages]; omega)
  · exact iterPagesAux_length_le fetch _ _ 1

/-- C5 witness: the paginator facts at a concrete two-page upstream. -/
theorem C5_paginator_witness :
    (iter_paginated johnFetch 100 5).map Prod.fst =
      List.range' 1 (iter_paginated johnFetch 100 5).length ∧
    pageStop (1, johnPayload).2 (1, johnPayload).1 = false ∧
    pageStop (2, PyVal.pydict []).2 (2, PyVal.pydict []).1 = true := by
  refine ⟨(C5_paginator johnFetch 100 5).2.2.2.1,
    (C5_paginator johnFetch 100 5).2.2.2.2.2.2.2.1 (1, johnPayload) ?_,
    (C5_paginator johnFetch 100 5).2.2.2.2.2.2.2.2 (2, PyVal.pydict [])
      (by rfl) (by decide)⟩
  rw [show (iter_paginated johnFetch 100 5).dropLast = [(1, johnPayload)] from rfl]
  exact List.mem_singleton.mpr rfl

/-! ## Lemmas about the stable descending sort -/

theorem mem_insertDesc {x a : ScoredMatch} : ∀ {l : List ScoredMatch},
    a ∈ insertDesc x l ↔ a = x ∨ a ∈ l := by
  intro l
  induction l with
  | nil => simp [insertDesc]
  | cons y ys ih =>
    simp only [insertDesc]
    split_ifs with h
    · simp [List.mem_cons]
    · simp only [List.mem_cons, ih]
      tauto

theorem mem_sortByScoreDesc {a : ScoredMatch} : ∀ {l : List ScoredMatch},
    a ∈ sortByScoreDesc l ↔ a ∈ l := by
  intro l
  induction l with
  | nil => simp [sortByScoreDesc]
  | cons y ys ih =>
    simp only [sortByScoreDesc, mem_insertDesc, ih, List.mem_cons]

theorem sorted_insertDesc {x : ScoredMatch} : ∀ {l : List ScoredMatch},
    List.Sorted (fun a b => b.1 ≤ a.1) l →
    List.Sorted (fun a b => b.1 ≤ a.1) (insertDesc x l) := by
  intro l
  induction l with
  | nil => intro _; simp [insertDesc]
  | cons y ys ih =>
    intro h
    rw [insertDesc]
    split_ifs with hyx
    · rw [List.sorted_cons]
      refine ⟨?_, h⟩
      intro b hb
      rcases List.mem_cons.mp hb with rfl | hbys
      · exact hyx
      · exact le_trans ((List.sorted_cons.mp h).1 b hbys) hyx
    · rw [List.sorted_cons] at h ⊢
      refine ⟨?_, ih h.2⟩
      intro b hb
      rcases mem_insertDesc.mp hb with rfl | hbys
      · exact le_of_lt (lt_of_not_le hyx)
      · exact h.1 b hbys

theorem sorted_sortByScoreDesc : ∀ (l : List ScoredMatch),
    List.Sorted (fun a b => b.1 ≤ a.1) (sortByScoreDesc l) := by
  intro l
  induction l with
  | nil => simp [sortByScoreDesc]
  | cons y ys ih => exact sorted_insertDesc ih

/-- Stability of the insertion step, expressed through the equal-score
filter: inserting an element never reorders the elements of its own score
class, and the inserted element lands in front of its class. -/
theorem filter_insertDesc (x : ScoredMatch) (s : ℚ) : ∀ (l : List ScoredMatch),
    (insertDesc x l).filter (fun m => decide (m.1 = s)) =
      if x.1 = s then x :: l.filter (fun m => decide (m.1 = s))
      else l.filter (fun m => decide (m.1 = s)) := by
  intro l
  induction l with
  | nil =>
    by_cases hx : x.1 = s <;> simp [insertDesc, List.filter, hx]
  | cons y ys ih =>
    by_cases hx : x.1 = s
    · rw [if_pos hx, insertDesc]
      split_ifs with hyx
      · simp [List.filter_cons, hx]
      · have hy : ¬ y.1 = s := fun he => hyx (le_of_eq (he.trans hx.symm))
        simp [List.filter_cons, hy, ih, hx]
    · rw [if_neg hx, insertDesc]
      split_ifs with hyx
      · simp [List.filter_cons, hx]
      · simp [List.filter_cons, ih, hx]

/-- Stability of the sort: for every score value, the elements of that
score class appear in the sorted list in their original order. -/
theorem filter_sortByScoreDesc (s : ℚ) : ∀ (l : List ScoredMatch),
    (sortByScoreDesc l).filter (fun m => decide (m.1 = s)) =
      l.filter (fun m => decide (m.1 = s)) := by
  intro l
  induction l with
  | nil => rfl
  | cons y ys ih =>
    rw [sortByScoreDesc, filter_insertDesc, ih]
    by_cases hy : y.1 = s <;> simp [List.filter_cons, hy]

/-! ## Invariants of the scan state -/

theorem processOne_itemsScanned (P : SParams) (page : ℕ) (attrs : List (String × PyVal))
    (st : ScanState) :
    (processOne P page attrs st).itemsScanned = st.itemsScanned + 1 := by
  simp only [processOne]
  split_ifs <;> rfl

theorem processOne_processed (P : SParams) (page : ℕ) (attrs : List (String × PyVal))
    (st : ScanState) :
    (processOne P page attrs st).processed = st.processed ++ [(page, attrs)] := by
  simp only [processOne]
  split_ifs <;> rfl

theorem processOne_pagesScanned (P : SParams) (page : ℕ) (attrs : List (String × PyVal))
    (st : ScanState) :
    (processOne P page attrs st).pagesScanned = insertPage page st.pagesScanned := by
  simp only [processOne]
  split_ifs <;> rfl

theorem processOne_broke (P : SParams) (page : ℕ) (attrs : List (String × PyVal))
    (st : ScanState) :
    (processOne P page attrs st).broke = st.broke := by
  simp only [processOne]
  split_ifs <;> rfl

theorem processOne_scored_min (P : SParams) (page : ℕ) (attrs : List (String × PyVal))
    (st : ScanState) (h : ∀ m ∈ st.scored, P.minScore ≤ m.1) :
    ∀ m ∈ (processOne P page attrs st).scored, P.minScore ≤ m.1 := by
  simp only [processOne]
  split_ifs with hms
  · intro m hm
    rcases List.mem_append.mp hm with hm | hm
    · exact h m hm
    · rcases List.mem_singleton.mp hm with rfl
      exact hms
  · exact h

theorem processItems_scored_min (P : SParams) (page : ℕ) :
    ∀ (items : List (List (String × PyVal))) (st : ScanState),
      (∀ m ∈ st.scored, P.minScore ≤ m.1) →
      ∀ m ∈ (processItems P page items st).1.scored, P.minScore ≤ m.1 := by
  intro items
  induction items with
  | nil => intro st h; exact h
  | cons a rest ih =>
    intro st h
    rw [processItems]
    split_ifs with hbr
    · exact processOne_scored_min P page a st h
    · exact ih (processOne P page a st) (processOne_scored_min P page a st h)

theorem runScan_scored_min (P : SParams) :
    ∀ (pages : List (ℕ × PyVal)) (st : ScanState),
      (∀ m ∈ st.scored, P.minScore ≤ m.1) →
      ∀ m ∈ (runScan P pages st).scored, P.minScore ≤ m.1 := by
  intro pages
  induction pages with
  | nil => intro st h; exact h
  | cons pr rest ih =>
    obtain ⟨page, payload⟩ := pr
    intro st h
    rw [runScan]
    split_ifs with hbr
    · exact processItems_scored_min P page _ st h
    · exact ih _ (processItems_scored_min P page _ st h)

theorem processOne_count (P : SParams) (page : ℕ) (attrs : List (String × PyVal))
    (st : ScanState) (h : st.itemsScanned = st.processed.length) :
    (processOne P page attrs st).itemsScanned = (processOne P page attrs st).processed.length := by
  rw [processOne_itemsScanned, processOne_processed, List.length_append, h]
  rfl

theorem processItems_count (P : SParams) (page : ℕ) :
    ∀ (items : List (List (String × PyVal))) (st : ScanState),
      st.itemsScanned = st.processed.length →
      (processItems P page items st).1.itemsScanned =
        (processItems P page items st).1.processed.length := by
  intro items
  induction items with
  | nil => intro st h; exact h
  | cons a rest ih =>
    intro st h
    rw [processItems]
    split_ifs with hbr
    · exact processOne_count P page a st h
    · exact ih (processOne P page a st) (processOne_count P page a st h)

theorem runScan_count (P : SParams) :
    ∀ (pages : List (ℕ × PyVal)) (st : ScanState),
      st.itemsScanned = st.processed.length →
      (runScan P pages st).itemsScanned = (runScan P pages st).processed.length := by
  intro pages
  induction pages with
  | nil => intro st h; exact h
  | cons pr rest ih =>
    obtain ⟨page, payload⟩ := pr
    intro st h
    rw [runScan]
    split_ifs with hbr
    · exact processItems_count P page _ st h
    · exact ih _ (processItems_count P page _ st h)

/-- The pages-scanned set is a duplicate-free list holding exactly the
pages of the processed-records trace. -/
def PagesInv (st : ScanState) : Prop :=
  st.pagesScanned.Nodup ∧ ∀ p, p ∈ st.pagesScanned ↔ p ∈ st.processed.map Prod.fst

theorem processOne_pagesInv (P : SParams) (page : ℕ) (attrs : List (String × PyVal))
    (st : ScanState) (h : PagesInv st) : PagesInv (processOne P page attrs st) := by
  obtain ⟨hnd, hiff⟩ := h
  constructor
  · rw [processOne_pagesScanned]
    unfold insertPage
    split_ifs with hmem
    · exact hnd
    · rw [List.nodup_append]
      exact ⟨hnd, List.nodup_singleton _,
        fun a ha hb => hmem (by rcases List.mem_singleton.mp hb with rfl; exact ha)⟩
  · intro p
    rw [processOne_pagesScanned, processOne_processed, List.map_append]
    unfold insertPage
    split_ifs with hmem
    · constructor
      · intro hp
        exact List.mem_append_left _ ((hiff p).mp hp)
      · intro hp
        rcases List.mem_append.mp hp with hp | hp
        · exact (hiff p).mpr hp
        · rcases List.mem_singleton.mp (by simpa using hp) with rfl
          exact hmem
    · constructor
      · intro hp
        rcases List.mem_append.mp hp with hp | hp
        · exact List.mem_append_left _ ((hiff p).mp hp)
        · exact List.mem_append_right _ (by simpa using hp)
      · intro hp
        rcases List.mem_append.mp hp with hp | hp
        · exact List.mem_append_left _ ((hiff p).mpr hp)
        · exact List.mem_append_right _ (by simpa using hp)

theorem processItems_pagesInv (P : SParams) (page : ℕ) :
    ∀ (items : List (List (String × PyVal))) (st : ScanState),
      PagesInv st → PagesInv (processItems P page items st).1 := by
  intro items
  induction items with
  | nil => intro st h; exact h
  | cons a rest ih =>
    intro st h
    rw [processItems]
    split_ifs with hbr
    · exact processOne_pagesInv P page a st h
    · exact ih (processOne P page a st) (processOne_pagesInv P page a st h)

theorem runScan_pagesInv (P : SParams) :
    ∀ (pages : List (ℕ × PyVal)) (st : ScanState),
      PagesInv st → PagesInv (runScan P pages st) := by
  intro pages
  induction pages with
  | nil => intro st h; exact h
  | cons pr rest ih =>
    obtain ⟨page, payload⟩ := pr
    intro st h
    rw [runScan]
    split_ifs with hbr
    · exact processItems_pagesInv P page _ st h
    · exact ih _ (processItems_pagesInv P page _ st h)

theorem length_eq_dedup_length {l₁ l₂ : List ℕ} (hnd : l₁.Nodup)
    (hiff : ∀ p, p ∈ l₁ ↔ p ∈ l₂) : l₁.length = l₂.dedup.length := by
  have h1 : l₁.toFinset = l₂.toFinset := by
    ext p
    simp only [List.mem_toFinset]
    exact hiff p
  have h2 : l₁.toFinset.card = l₁.length := List.toFinset_card_of_nodup hnd
  have h3 : l₂.toFinset.card = l₂.dedup.length := List.card_toFinset l₂
  rw [← h2, h1, h3]

/-- Consuming a page's items extends the processed trace by a prefix of
the page's records; the prefix is the whole page when no break fired. -/
theorem processItems_processed (P : SParams) (page : ℕ) :
    ∀ (items : List (List (String × PyVal))) (st : ScanState), ∃ k,
      k ≤ items.length ∧
      (processItems P page items st).1.processed
        = st.processed ++ (items.take k).map (fun a => (page, a)) ∧
      ((processItems P page items st).2 = false → k = items.length) := by
  intro items
  induction items with
  | nil =>
    intro st
    exact ⟨0, le_refl 0, by simp [processItems], fun _ => rfl⟩
  | cons a rest ih =>
    intro st
    rw [processItems]
    split_ifs with hbr
    · refine ⟨1, by simp, ?_, fun hco => absurd hco (by simp)⟩
      simpa using processOne_processed P page a st
    · obtain ⟨k, hk, hproc, hflag⟩ := ih (processOne P page a st)
      refine ⟨k + 1, by simpa using hk, ?_, fun hco => by rw [hflag hco]; rfl⟩
      rw [hproc, processOne_processed]
      simp [List.append_assoc]

theorem processItems_broke (P : SParams) (page : ℕ) :
    ∀ (items : List (List (String × PyVal))) (st : ScanState),
      (processItems P page items st).1.broke = st.broke := by
  intro items
  induction items with
  | nil => intro st; rfl
  | cons a rest ih =>
    intro st
    rw [processItems]
    split_ifs with hbr
    · exact processOne_broke P page a st
    · rw [ih (processOne P page a st), processOne_broke]

/-- Running the scan extends the processed trace by a prefix of the
generator's yield stream; the whole stream when the early-termination
break never fired. -/
theorem runScan_processed (P : SParams) :
    ∀ (pages : List (ℕ × PyVal)) (st : ScanState), ∃ t,
      (runScan P pages st).processed = st.processed ++ t ∧
      t <+: pagesYields pages ∧
      ((runScan P pages st).broke = false → t = pagesYields pages) := by
  intro pages
  induction pages with
  | nil =>
    intro st
    exact ⟨[], by simp [runScan], List.nil_prefix, fun _ => by simp [pagesYields]⟩
  | cons pr rest ih =>
    obtain ⟨page, payload⟩ := pr
    intro st
    rw [runScan]
    split_ifs with hbr
    · obtain ⟨k, hk, hproc, _⟩ := processItems_processed P page (extract_list_items payload) st
      refine ⟨((extract_list_items payload).take k).map (fun a => (page, a)), hproc, ?_,
        fun hco => absurd hco (by simp)⟩
      have h1 : ((extract_list_items payload).take k).map (fun a => (page, a)) <+:
          (extract_list_items payload).map (fun a => (page, a)) :=
        (List.take_prefix k _).map _
      calc ((extract_list_items payload).take k).map (fun a => (page, a))
          <+: (extract_list_items payload).map (fun a => (page, a)) := h1
        _ <+: pagesYields ((page, payload) :: rest) := by
              rw [show pagesYields ((page, payload) :: rest)
                  = (extract_list_items payload).map (fun a => (page, a))
                    ++ pagesYields rest from rfl]
              exact List.prefix_append _ _
    · obtain ⟨k, hk, hproc, hflag⟩ := processItems_processed P page (extract_list_items payload) st
      have hfl : (processItems P page (extract_list_items payload) st).2 = false :=
        Bool.not_eq_true _ ▸ eq_false_of_ne_true hbr
      have hall : (processItems P page (extract_list_items payload) st).1.processed
          = st.processed ++ (extract_list_items payload).map (fun a => (page, a)) := by
        rw [hproc, hflag hfl, List.take_length]
      obtain ⟨t2, ht2, ht2p, ht2f⟩ := ih (processItems P page (extract_list_items payload) st).1
      refine ⟨(extract_list_items payload).map (fun a => (page, a)) ++ t2, ?_, ?_, ?_⟩
      · rw [ht2, hall, List.append_assoc]
      · obtain ⟨sfx, hsfx⟩ := ht2p
        refine ⟨sfx, ?_⟩
        rw [show pagesYields ((page, payload) :: rest)
            = (extract_list_items payload).map (fun a => (page, a)) ++ pagesYields rest from rfl,
          List.append_assoc, hsfx]
      · intro hco
        rw [ht2f hco,
          show pagesYields ((page, payload) :: rest)
            = (extract_list_items payload).map (fun a => (page, a)) ++ pagesYields rest from rfl]

/-- Destructor for a successful search: the result is built from the
final state of the scan over the paginated stream. -/
theorem fuzzy_search_ok (ratio : Str → Str → ℚ) (fetch : ℕ → ℕ → PyVal) (q : Str)
    (limit max_pages per_page : ℤ) (min_score : ℚ) (kind : Kind) (r : SearchResult)
    (h : fuzzy_search ratio fetch q limit max_pages per_page min_score kind = .ok r) :
    ∃ st : ScanState,
      st = runScan ⟨ratio, kind, pyStrip q, min_score, clampLimit limit⟩
             (iter_paginated fetch per_page max_pages) initState ∧
      r = { query := pyStrip q,
            topMatches := (sortByScoreDesc st.scored).take (clampLimit limit),
            scannedItems := st.itemsScanned, scannedPages := st.pagesScanned.length,
            accepted := st.scored, processed := st.processed, broke := st.broke } := by
  unfold fuzzy_search at h
  dsimp only at h
  split_ifs at h with hq
  exact ⟨_, rfl, (Except.ok.inj h).symm⟩

/-- C1: every successful search (either kind) returns a match sequence
sorted by score descending, stably — for every score value, the matches of
that score appear in their scan-discovery order (a prefix of the accepted
trace's score class, since only the top `limit` are kept); its length is
at most the limit clamped into [1,50]; and every returned match scored at
least `minScore`. -/
theorem C1_result_invariants (ratio : Str → Str → ℚ) (fetch : ℕ → ℕ → PyVal) (q : Str)
    (limit max_pages per_page : ℤ) (min_score : ℚ) (kind : Kind) (r : SearchResult)
    (h : fuzzy_search ratio fetch q limit max_pages per_page min_score kind = .ok r) :
    1 ≤ clampLimit limit ∧ clampLimit limit ≤ 50 ∧
    List.Sorted (fun (a b : ScoredMatch) => b.1 ≤ a.1) r.topMatches ∧
    r.topMatches.length ≤ clampLimit limit ∧
    (∀ m ∈ r.topMatches, min_score ≤ m.1) ∧
    (∀ s : ℚ, r.topMatches.filter (fun m => decide (m.1 = s)) <+:
       r.accepted.filter (fun m => decide (m.1 = s))) := by
  obtain ⟨st, hst, rfl⟩ :=
    fuzzy_search_ok ratio fetch q limit max_pages per_page min_score kind r h
  dsimp only
  refine ⟨?_, ?_, ?_, ?_, ?_, ?_⟩
  · simp only [clampLimit]; omega
  · simp only [clampLimit]; omega
  · exact (sorted_sortByScoreDesc st.scored).sublist (List.take_sublist _ _)
  · exact List.length_take_le _ _
  · intro m hm
    have hm2 : m ∈ st.scored := mem_sortByScoreDesc.mp (List.mem_of_mem_take hm)
    exact runScan_scored_min _ _ _
      (fun m hm => absurd hm (List.not_mem_nil m)) m (hst ▸ hm2)
  · intro s
    have h1 : (List.take (clampLimit limit) (sortByScoreDesc st.scored)).filter
        (fun m => decide (m.1 = s))
        <+: (sortByScoreDesc st.scored).filter (fun m => decide (m.1 = s)) :=
      (List.take_prefix _ _).filter _
    rw [filter_sortByScoreDesc] at h1
    exact h1

/-- C1 witness: the invariants at a concrete search over an empty
collection. -/
theorem C1_result_invariants_witness :
    fuzzy_search ratioZero emptyFetch "q".toList 10 5 100 55 Kind.user = .ok emptyOkResult ∧
    List.Sorted (fun (a b : ScoredMatch) => b.1 ≤ a.1) emptyOkResult.topMatches ∧
    emptyOkResult.topMatches.length ≤ clampLimit 10 ∧
    (∀ m ∈ emptyOkResult.topMatches, (55 : ℚ) ≤ m.1) := by
  have h : fuzzy_search ratioZero emptyFetch "q".toList 10 5 100 55 Kind.user =
      .ok emptyOkResult := rfl
  have hc := C1_result_invariants ratioZero emptyFetch "q".toList 10 5 100 55
    Kind.user emptyOkResult h
  exact ⟨h, hc.2.2.1, hc.2.2.2.1, hc.2.2.2.2.1⟩

/-- C6: the early-termination rule.  First: if consuming a page's records
fires the break, the whole scan returns that page's state unchanged — the
later pages (`rest`) do not appear in the result at all, so no further
page is fetched.  Second: the break fires immediately at a record whose
best field score reaches 99.5 once the accepted matches have reached the
clamped limit.  Third: a successful result — early-stopped or not — still
has its matches sorted descending and truncated to the limit. -/
theorem C6_early_termination :
    (∀ (P : SParams) (page : ℕ) (payload : PyVal) (rest : List (ℕ × PyVal)) (st : ScanState),
       (processItems P page (extract_list_items payload) st).2 = true →
       runScan P ((page, payload) :: rest) st =
         { (processItems P page (extract_list_items payload) st).1 with broke := true }) ∧
    (∀ (P : SParams) (page : ℕ) (attrs : List (String × PyVal))
       (rest : List (List (String × PyVal))) (st : ScanState),
       199/2 ≤ (bestFieldScore P.ratio P.q (fieldsFor P.kind attrs)).1 →
       P.lim ≤ (processOne P page attrs st).scored.length →
       processItems P page (attrs :: rest) st = (processOne P page attrs st, true)) ∧
    (∀ (ratio : Str → Str → ℚ) (fetch : ℕ → ℕ → PyVal) (q : Str)
       (limit max_pages per_page : ℤ) (min_score : ℚ) (kind : Kind) (r : SearchResult),
       fuzzy_search ratio fetch q limit max_pages per_page min_score kind = .ok r →
       List.Sorted (fun (a b : ScoredMatch) => b.1 ≤ a.1) r.topMatches ∧
       r.topMatches.length ≤ clampLimit limit) := by
  refine ⟨?_, ?_, ?_⟩
  · intro P page payload rest st hbr
    rw [runScan, if_pos hbr]
  · intro P page attrs rest st h1 h2
    rw [processItems, if_pos ⟨h1, h2⟩]
  · intro ratio fetch q limit max_pages per_page min_score kind r h
    obtain ⟨st, hst, rfl⟩ :=
      fuzzy_search_ok ratio fetch q limit max_pages per_page min_score kind r h
    exact ⟨(sorted_sortByScoreDesc st.scored).sublist (List.take_sublist _ _),
           List.length_take_le _ _⟩

/-- C6 witness: a concrete break — query `"abc"`, limit 1, a page with two
exact-match records.  The break fires on the first record; the second
record of the page and the whole second page are never consumed. -/
theorem C6_early_termination_witness :
    processItems abcParams 1 (extract_list_items abcPayload) initState
      = (processOne abcParams 1 abcAttrs initState, true) ∧
    runScan abcParams [(1, abcPayload), (2, abcPayload)] initState
      = { (processItems abcParams 1 (extract_list_items abcPayload) initState).1
          with broke := true } := by
  have h100 : string_similarity_score ratioZero "abc".toList "abc".toList = 100 :=
    score_self_100 ratioZero (by decide)
  have hbestIf : bestFieldScore ratioZero "abc".toList (userFields abcAttrs)
      = if string_similarity_score ratioZero "abc".toList "abc".toList > 0
        then (string_similarity_score ratioZero "abc".toList "abc".toList, some "username")
        else (0, none) := rfl
  have hbest : bestFieldScore ratioZero "abc".toList (userFields abcAttrs)
      = (100, some "username") := by
    rw [hbestIf, h100, if_pos (by norm_num : (100:ℚ) > 0)]
  have h1 : (199:ℚ)/2 ≤
      (bestFieldScore abcParams.ratio abcParams.q (fieldsFor abcParams.kind abcAttrs)).1 := by
    show (199:ℚ)/2 ≤ (bestFieldScore ratioZero "abc".toList (userFields abcAttrs)).1
    rw [hbest]
    norm_num
  have hpo : processOne abcParams 1 abcAttrs initState
      = { itemsScanned := 1, pagesScanned := [1],
          scored := [(100, abcAttrs, some "username")],
          processed := [(1, abcAttrs)], broke := false } := by
    simp only [processOne, abcParams, fieldsFor]
    rw [hbest, if_pos (by norm_num : (55:ℚ) ≤ 100)]
    rfl
  have h2 : abcParams.lim ≤ (processOne abcParams 1 abcAttrs initState).scored.length := by
    rw [hpo]
    simp [abcParams]
  constructor
  · rw [show extract_list_items abcPayload = [abcAttrs, abcAttrs] from rfl]
    exact C6_early_termination.2.1 abcParams 1 abcAttrs [abcAttrs] initState h1 h2
  · apply C6_early_termination.1
    rw [show extract_list_items abcPayload = [abcAttrs, abcAttrs] from rfl,
      C6_early_termination.2.1 abcParams 1 abcAttrs [abcAttrs] initState h1 h2]

/-- C10: for every successful search, `scanned.items` counts exactly the
records of the processed trace — a prefix of the generator's yield stream,
and the whole stream when no early break fired — regardless of whether
they were accepted or rejected by the score threshold; `scanned.pages`
counts exactly the distinct page numbers occurring in that trace, so a
fetched page yielding zero records increments neither statistic. -/
theorem C10_scan_statistics (ratio : Str → Str → ℚ) (fetch : ℕ → ℕ → PyVal) (q : Str)
    (limit max_pages per_page : ℤ) (min_score : ℚ) (kind : Kind) (r : SearchResult)
    (h : fuzzy_search ratio fetch q limit max_pages per_page min_score kind = .ok r) :
    r.scannedItems = r.processed.length ∧
    r.scannedPages = (r.processed.map Prod.fst).dedup.length ∧
    r.processed <+: pagesYields (iter_paginated fetch per_page max_pages) ∧
    (r.broke = false →
      r.processed = pagesYields (iter_paginated fetch per_page max_pages)) := by
  obtain ⟨st, hst, rfl⟩ :=
    fuzzy_search_ok ratio fetch q limit max_pages per_page min_score kind r h
  subst hst
  dsimp only
  obtain ⟨t, ht, htp, htf⟩ := runScan_processed
    ⟨ratio, kind, pyStrip q, min_score, clampLimit limit⟩
    (iter_paginated fetch per_page max_pages) initState
  have ht' : (runScan ⟨ratio, kind, pyStrip q, min_score, clampLimit limit⟩
      (iter_paginated fetch per_page max_pages) initState).processed = t := by
    simpa using ht
  obtain ⟨hnd, hiff⟩ := runScan_pagesInv
    ⟨ratio, kind, pyStrip q, min_score, clampLimit limit⟩
    (iter_paginated fetch per_page max_pages) initState ⟨List.nodup_nil, by simp [initState]⟩
  refine ⟨runScan_count _ _ _ rfl, length_eq_dedup_length hnd hiff, ?_, ?_⟩
  · rw [ht']
    exact htp
  · intro hbr
    rw [ht']
    exact htf hbr

/-- C10 witness: the scan statistics at a concrete search over an empty
collection (one fetched page, zero records, both counters zero). -/
theorem C10_scan_statistics_witness :
    emptyOkResult.scannedItems = emptyOkResult.processed.length ∧
    emptyOkResult.scannedPages = (emptyOkResult.processed.map Prod.fst).dedup.length ∧
    emptyOkResult.processed = pagesYields (iter_paginated emptyFetch 100 5) := by
  have h : fuzzy_search ratioZero emptyFetch "q".toList 10 5 100 55 Kind.user =
      .ok emptyOkResult := rfl
  have hc := C10_scan_statistics ratioZero emptyFetch "q".toList 10 5 100 55
    Kind.user emptyOkResult h
  exact ⟨hc.1, hc.2.1, hc.2.2.2 rfl⟩

end PteroMCP
